import Mathlib

/-!
Shallow embedding of `src/main.rs` of the staking-paras CLI: the staged
transaction pipeline of the `validate` and `nominate` commands (fund, bond,
assume role), the chain-state reader behind `stakers_info`, the nomination
target sampler, and seed-based key-pair derivation, together with theorems
settling the specification's claims about them.
-/

namespace StakingParas

/-- A byte of a raw storage key, an address, or a seed buffer. -/
abbrev Byte := Nat

/-- Statuses delivered by the chain client's status stream
(`sign_and_submit_then_watch_default`); the stream ends after a terminal
status (`finalized` or `failed`). -/
inductive TxStatus
  | submitted
  | included
  | finalized
  | failed
  deriving DecidableEq

/-- Identifiers for the transactions a `validate`/`nominate` run submits:
the single funding batch and, per generated account `i`, its bond and its
role (validate or nominate) transaction. -/
inductive TxId
  | fundBatch
  | bond (i : Nat)
  | role (i : Nat)
  deriving DecidableEq

/-- Observable events of a run: submitting transaction `t`, or observing one
status of `t`'s status stream while awaiting it. -/
inductive Event
  | submit (t : TxId)
  | observe (t : TxId) (s : TxStatus)
  deriving DecidableEq

/-- Embeds `helpers::signer_from_seed` (src/main.rs:356-362): a 32-byte
buffer initialised to zero with the seed string's bytes written at the front
(`Write` for a byte slice truncates at the buffer's end, so at most 32 bytes
are copied). `Keypair::from_seed` is the external deterministic sr25519
collaborator, so a key pair is identified with its 32-byte seed buffer. -/
def signer_from_seed (init_seed : List Byte) : List Byte :=
  init_seed.take 32 ++ List.replicate (32 - init_seed.length) 0

/-- The on-chain address an Identity's key pair derives (`pair.public_key()`);
the derivation is an external deterministic collaborator and is modelled as
the injection of the key pair itself. -/
def public_key (pair : List Byte) : List Byte :=
  pair

/-- Byte string of `seed.to_string()` for a randomly drawn `usize` seed
(src/main.rs:283-284). -/
def natBytes (n : Nat) : List Byte :=
  (Nat.toDigits 10 n).map Char.toNat

/-- One `BalancesCall::transfer_allow_death { dest, value }` instruction of
the funding batch (src/main.rs:288-291). -/
structure MintCall where
  dest : List Byte
  value : Nat
  deriving DecidableEq

/-- What `fund_accounts` produces: the generated key pairs it returns and the
mint calls wrapped into the single `utility.batch` transaction. -/
structure FundOutcome where
  pairs : List (List Byte)
  batch : List MintCall
  deriving DecidableEq

/-- Embeds `helpers::fund_accounts` (src/main.rs:265-304). `rng k` is the
`usize` the thread rng draws at iteration `k`; `ed` is the chain's
existential-deposit constant; `_stream` is the status stream of the submitted
batch transaction. The loop pushes, per requested account, the generated key
pair and a transfer instruction to that pair's address; the batch is
submitted signed by the dev funder and its stream is drained by
`while let Some(_) = progress.next().await {}`, whose body is empty: every
status, the terminal one included, is consumed without being inspected, and
`Ok(pairs)` is returned unconditionally afterwards — the result does not
depend on the stream's contents. -/
def fund_accounts (rng : Nat → Nat) (ed : Nat) (n : Nat) (amount : Option Nat)
    (_stream : List TxStatus) : Except String FundOutcome :=
  let fund_with := amount.getD (ed * 1000)
  let pairs := (List.range n).map (fun k => signer_from_seed (natBytes (rng k)))
  let mint_calls := pairs.map (fun pair => MintCall.mk (public_key pair) fund_with)
  Except.ok (FundOutcome.mk pairs mint_calls)

/-- One per-transaction loop of `validate`/`nominate` (src/main.rs:144-155,
158-169, 210-221, 224-237): iterate over the prepared calls with a peekable
iterator, submitting each; only when `peek()` is `None` — at the last call —
is that call's status stream drained to its end. -/
def submitLoop (streams : TxId → List TxStatus) (mk : Nat → TxId) : List Nat → List Event
  | [] => []
  | [i] => Event.submit (mk i) :: (streams (mk i)).map (Event.observe (mk i))
  | i :: j :: rest => Event.submit (mk i) :: submitLoop streams mk (j :: rest)

/-- Events of a `commands::validate` run (src/main.rs:113-173) with `n`
generated accounts: submit the funding batch and drain its whole status
stream (inside `fund_accounts`), then run the bond loop, then the validate
(role) loop. `streams t` is transaction `t`'s status stream. -/
def validateTrace (n : Nat) (streams : TxId → List TxStatus) : List Event :=
  (Event.submit TxId.fundBatch ::
      (streams TxId.fundBatch).map (Event.observe TxId.fundBatch))
    ++ submitLoop streams TxId.bond (List.range n)
    ++ submitLoop streams TxId.role (List.range n)

/-- Events of a `commands::nominate` run (src/main.rs:176-241): identical
staging to `validate` — fund and drain, bond loop, nominate (role) loop. -/
def nominateTrace (n : Nat) (streams : TxId → List TxStatus) : List Event :=
  (Event.submit TxId.fundBatch ::
      (streams TxId.fundBatch).map (Event.observe TxId.fundBatch))
    ++ submitLoop streams TxId.bond (List.range n)
    ++ submitLoop streams TxId.role (List.range n)

/-- The event observes a status of the funding batch's stream. -/
def isFundObserve : Event → Bool
  | Event.observe TxId.fundBatch _ => true
  | _ => false

/-- The event submits a staking (bond or role) transaction. -/
def isStakingSubmit : Event → Bool
  | Event.submit (TxId.bond _) => true
  | Event.submit (TxId.role _) => true
  | _ => false

/-- Every `p`-event of the trace occurs strictly before every `q`-event. -/
def beforeAll {α : Type} (p q : α → Bool) (tr : List α) : Prop :=
  ∀ i j, ∀ hi : i < tr.length, ∀ hj : j < tr.length,
    p (tr.get ⟨i, hi⟩) = true → q (tr.get ⟨j, hj⟩) = true → i < j

/-- Error kinds of the chain-state reader (spec §7). The source realises the
schema mismatch as the panic `expect("32 bytes should fit")` on the
`[u8; 32]` conversion. -/
inductive ReadError
  | SchemaDecodeError
  deriving DecidableEq

/-- Address extraction of `get_validators`/`get_nominators`
(src/main.rs:316-317, 335-336): `k.into_iter().rev().take(32)` collects up
to 32 bytes walking the raw key backwards, then `try_into::<[u8; 32]>`
demands exactly 32 of them, panicking otherwise. -/
def extract_account (k : List Byte) : Except ReadError (List Byte) :=
  let account := k.reverse.take 32
  if account.length = 32 then Except.ok account
  else Except.error ReadError.SchemaDecodeError

/-- One raw item of the paginated storage stream: a decoded `(key, value)`
pair or an error item, mirroring the `Result` items matched by
`while let Some(Ok(kv)) = results.next().await`. -/
abbrev StorageItem := Except String (List Byte × List Byte)

/-- Embeds `helpers::get_validators` (src/main.rs:307-323): loop while the
next stream item is `Some(Ok(kv))` — an error item ends the loop exactly as
stream exhaustion does — extract the account from the raw key (panicking on
a short key) and accumulate it. -/
def get_validators : List StorageItem → Except ReadError (List (List Byte))
  | [] => Except.ok []
  | Except.error _ :: _ => Except.ok []
  | Except.ok (k, _) :: rest =>
    match extract_account k with
    | Except.error e => Except.error e
    | Except.ok account =>
      match get_validators rest with
      | Except.error e => Except.error e
      | Except.ok tl => Except.ok (account :: tl)

/-- Embeds `helpers::get_nominators` (src/main.rs:326-342), whose body is
verbatim identical to `get_validators` except for querying the nominators
storage map. -/
def get_nominators : List StorageItem → Except ReadError (List (List Byte)) :=
  get_validators

/-- Embeds `commands::stakers_info` (src/main.rs:244-255): read both maps
and report `(validators.len(), nominators.len())`. -/
def stakers_info (vStream nStream : List StorageItem) : Except ReadError (Nat × Nat) :=
  match get_validators vStream with
  | Except.error e => Except.error e
  | Except.ok vs =>
    match get_nominators nStream with
    | Except.error e => Except.error e
    | Except.ok ns => Except.ok (vs.length, ns.length)

/-- The rand collaborator's `SliceRandom::choose_multiple(rng, amount)`,
per its documented contract: sample `min amount len` elements without
replacement (pairwise-distinct indices). The rng is modelled by the list
`rs` of draws; each step picks one index of the remaining pool and removes
it. -/
def choose_multiple {α : Type} : List Nat → Nat → List α → List α
  | _, 0, _ => []
  | _, _ + 1, [] => []
  | rs, m + 1, x :: xs =>
    let r := rs.headD 0 % (x :: xs).length
    (x :: xs).get ⟨r, Nat.mod_lt _ (Nat.succ_pos xs.length)⟩ ::
      choose_multiple rs.tail m ((x :: xs).eraseIdx r)

/-- Embeds `helpers::select_targets` (src/main.rs:345-353):
`validators.choose_multiple(&mut thread_rng(), n).cloned().collect()`. -/
def select_targets {α : Type} (rs : List Nat) (n : Nat) (validators : List α) : List α :=
  choose_multiple rs n validators

/-- The per-account funding amount `validate` and `nominate` pass to
`fund_accounts` (src/main.rs:125, 189): `bond_amount * 2` in `u128`
arithmetic, i.e. reduced modulo `2 ^ 128`. -/
def validate_fund_amount (bond_amount : Nat) : Nat :=
  bond_amount * 2 % 2 ^ 128

/-- Claim C1 (refuted by the code): in a `validate` or `nominate` run with
two accounts whose every status stream is `[finalized]`, the bond loop
awaits only the last submitted bond: account 0's bond stream is never
observed, yet account 0's role transaction is submitted, and the stage
completes without ever observing bond 0's or role 0's terminal state. -/
theorem staking_stage_awaits_only_last :
    (Event.submit (TxId.bond 0) ∈ validateTrace 2 (fun _ => [TxStatus.finalized]) ∧
     Event.submit (TxId.role 0) ∈ validateTrace 2 (fun _ => [TxStatus.finalized]) ∧
     Event.observe (TxId.bond 0) TxStatus.finalized ∉
       validateTrace 2 (fun _ => [TxStatus.finalized]) ∧
     Event.observe (TxId.role 0) TxStatus.finalized ∉
       validateTrace 2 (fun _ => [TxStatus.finalized])) ∧
    (Event.submit (TxId.role 0) ∈ nominateTrace 2 (fun _ => [TxStatus.finalized]) ∧
     Event.observe (TxId.bond 0) TxStatus.finalized ∉
       nominateTrace 2 (fun _ => [TxStatus.finalized])) := by
  decide

/-- Claim C2 (refuted by the code): for a storage key whose last 32 bytes
are the address `A = [0, 1, …, 31]`, the reader yields the byte-reversed
tail `A.reverse`, not `A` — `rev().take(32)` collects the trailing bytes
back to front and the result is never re-reversed. -/
theorem account_extraction_reverses_tail :
    extract_account ([7, 7] ++ List.range 32) = Except.ok (List.range 32).reverse ∧
    (List.range 32).reverse ≠ List.range 32 ∧
    get_validators [Except.ok (([7, 7] ++ List.range 32), [])] =
      Except.ok [(List.range 32).reverse] ∧
    get_nominators [Except.ok (([7, 7] ++ List.range 32), [])] =
      Except.ok [(List.range 32).reverse] :=
  ⟨rfl, by decide, rfl, rfl⟩

/-- Claim C3 (refuted by the code): with a funding status stream whose
terminal state is `failed`, `fund_accounts` still returns `Ok` — the drain
inspects no status — and the `validate` run still submits account 0's bond
and role transactions; no error naming the funding stage is ever produced. -/
theorem funding_failure_ignored :
    (fund_accounts (fun _ => 0) 10 1 (some 4)
        [TxStatus.submitted, TxStatus.failed]).isOk = true ∧
    Event.submit (TxId.bond 0) ∈
      validateTrace 1 (fun _ => [TxStatus.submitted, TxStatus.failed]) ∧
    Event.submit (TxId.role 0) ∈
      validateTrace 1 (fun _ => [TxStatus.submitted, TxStatus.failed]) :=
  ⟨rfl, by decide, by decide⟩

/-- Claim C6: every storage entry whose raw key is shorter than 32 bytes
makes the chain-state reader fail with the fatal schema-mismatch error
(realised in the source as the `expect` panic on the 32-byte conversion). -/
theorem short_key_schema_error (k : List Byte) (hk : k.length < 32) :
    extract_account k = Except.error ReadError.SchemaDecodeError ∧
    ∀ v rest, get_validators (Except.ok (k, v) :: rest) =
        Except.error ReadError.SchemaDecodeError ∧
      get_nominators (Except.ok (k, v) :: rest) =
        Except.error ReadError.SchemaDecodeError := by
  have hlen : (k.reverse.take 32).length ≠ 32 := by
    simp [List.length_take]
    omega
  have h1 : extract_account k = Except.error ReadError.SchemaDecodeError := by
    simp only [extract_account]
    rw [if_neg hlen]
  refine ⟨h1, fun v rest => ?_⟩
  constructor <;> simp [get_validators, get_nominators, h1]

/-- Witness for `short_key_schema_error` at the concrete key `[1, 2, 3]`. -/
theorem short_key_schema_error_witness :
    extract_account [1, 2, 3] = Except.error ReadError.SchemaDecodeError ∧
    get_validators [Except.ok (([1, 2, 3] : List Byte), [])] =
      Except.error ReadError.SchemaDecodeError :=
  ⟨(short_key_schema_error [1, 2, 3] (by decide)).1,
   ((short_key_schema_error [1, 2, 3] (by decide)).2 [] []).1⟩

/-- Claim C7: for every `n ≥ 0`, `fund_accounts` for `n` requested accounts
builds a single batch with exactly `n` transfer instructions, one per
generated Identity, instruction `i`'s recipient being pair `i`'s derived
address, and returns exactly the `n` generated key pairs. -/
theorem fund_accounts_batch_shape (rng : Nat → Nat) (ed n : Nat)
    (amount : Option Nat) (stream : List TxStatus) :
    ∃ out, fund_accounts rng ed n amount stream = Except.ok out ∧
      out.pairs.length = n ∧ out.batch.length = n ∧
      ∀ i, ∀ h1 : i < out.batch.length, ∀ h2 : i < out.pairs.length,
        (out.batch.get ⟨i, h1⟩).dest = public_key (out.pairs.get ⟨i, h2⟩) := by
  refine ⟨_, rfl, ?_, ?_, ?_⟩
  · simp [fund_accounts]
  · simp [fund_accounts]
  · intro i h1 h2
    simp [fund_accounts, List.get_eq_getElem, List.getElem_map]

/-- Witness for `fund_accounts_batch_shape` at two accounts. -/
theorem fund_accounts_batch_shape_witness :
    ∃ out, fund_accounts (fun _ => 1) 5 2 none [] = Except.ok out ∧
      out.pairs.length = 2 ∧ out.batch.length = 2 ∧
      ∀ i, ∀ h1 : i < out.batch.length, ∀ h2 : i < out.pairs.length,
        (out.batch.get ⟨i, h1⟩).dest = public_key (out.pairs.get ⟨i, h2⟩) :=
  fund_accounts_batch_shape (fun _ => 1) 5 2 none []

/-- Claim C9: the funding amount is `bond_amount * 2` in u128 arithmetic:
below `2 ^ 127` it is exactly twice the bond (hence at least the bond), and
beyond `2 ^ 127 - 1` the product wraps modulo `2 ^ 128`, leaving the funded
amount strictly smaller than the bond amount. -/
theorem funding_amount_double_wraps (b : Nat) :
    (b ≤ 2 ^ 127 - 1 → validate_fund_amount b = b * 2 ∧ b ≤ validate_fund_amount b) ∧
    (2 ^ 127 - 1 < b → b < 2 ^ 128 → validate_fund_amount b < b) := by
  have hM : (2 : Nat) ^ 128 = 2 ^ 127 * 2 := pow_succ 2 127
  have hB : 0 < (2 : Nat) ^ 127 := Nat.pos_pow_of_pos 127 (by omega)
  constructor
  · intro hb
    have hlt : b * 2 < 2 ^ 128 := by omega
    unfold validate_fund_amount
    rw [Nat.mod_eq_of_lt hlt]
    omega
  · intro hb1 hb2
    have hge : b * 2 ≥ 2 ^ 128 := by omega
    have hsub : b * 2 - 2 ^ 128 < 2 ^ 128 := by omega
    unfold validate_fund_amount
    rw [Nat.mod_eq_sub_mod hge, Nat.mod_eq_of_lt hsub]
    omega

/-- Witness for `funding_amount_double_wraps` at `b = 2 ^ 127`. -/
theorem funding_amount_double_wraps_witness :
    2 ^ 127 - 1 < 2 ^ 127 ∧ (2 : Nat) ^ 127 < 2 ^ 128 ∧
      validate_fund_amount (2 ^ 127) < 2 ^ 127 :=
  ⟨by decide, by decide,
   (funding_amount_double_wraps (2 ^ 127)).2 (by decide) (by decide)⟩

/-- Claim C10: `signer_from_seed` depends only on the first 32 bytes of the
seed string, so any two seeds sharing a 32-byte prefix derive identical key
pairs. -/
theorem signer_depends_on_first_32 (s1 s2 : List Byte)
    (h : s1.take 32 = s2.take 32) :
    signer_from_seed s1 = signer_from_seed s2 := by
  have hl : min 32 s1.length = min 32 s2.length := by
    have hlen := congrArg List.length h
    simpa [List.length_take] using hlen
  have h2 : 32 - s1.length = 32 - s2.length := by omega
  unfold signer_from_seed
  rw [h, h2]

/-- Witness: the distinct 33-byte seeds `1^33` and `1^32 ++ [2]` share their
32-byte prefix and collide to the same key pair. -/
theorem signer_depends_on_first_32_witness :
    (List.replicate 33 1 : List Byte) ≠ List.replicate 32 1 ++ [2] ∧
    signer_from_seed (List.replicate 33 1) =
      signer_from_seed (List.replicate 32 1 ++ [2]) :=
  ⟨by decide, signer_depends_on_first_32 _ _ (by decide)⟩

/-- Claim C8 (refuted by the code): an error item in the middle of the
paginated storage stream silently ends iteration — `while let Some(Ok(kv))`
treats it exactly as exhaustion — so from a stream carrying two decodable
validator entries around one error item, `stakers_info` reports the
truncated count 1 as success, exposing a partial read to its caller. -/
theorem truncated_snapshot_reported :
    get_validators
        [Except.ok ((List.range 32 : List Byte), []),
         Except.error "rpc error",
         Except.ok (((List.range 32).map (fun b => b + 1) : List Byte), [])] =
      Except.ok [(List.range 32).reverse] ∧
    stakers_info
        [Except.ok ((List.range 32 : List Byte), []),
         Except.error "rpc error",
         Except.ok (((List.range 32).map (fun b => b + 1) : List Byte), [])] [] =
      Except.ok (1, 0) :=
  ⟨rfl, rfl⟩

/-- Helper: `choose_multiple` draws exactly `min n l.length` elements. -/
theorem choose_multiple_length {α : Type} (rs : List Nat) (n : Nat) (l : List α) :
    (choose_multiple rs n l).length = min n l.length := by
  induction n generalizing rs l with
  | zero => simp [choose_multiple]
  | succ m ih =>
    cases l with
    | nil => simp [choose_multiple]
    | cons x xs =>
      simp only [choose_multiple, List.length_cons]
      rw [ih]
      have hr : rs.headD 0 % (xs.length + 1) < (x :: xs).length :=
        Nat.mod_lt (rs.headD 0) (Nat.succ_pos xs.length)
      rw [List.length_eraseIdx_of_lt hr]
      simp only [List.length_cons]
      omega

/-- Helper: every element `choose_multiple` draws is a member of the pool. -/
theorem choose_multiple_subset {α : Type} (rs : List Nat) (n : Nat) (l : List α) :
    ∀ a ∈ choose_multiple rs n l, a ∈ l := by
  induction n generalizing rs l with
  | zero => simp [choose_multiple]
  | succ m ih =>
    cases l with
    | nil => simp [choose_multiple]
    | cons x xs =>
      intro a ha
      simp only [choose_multiple, List.mem_cons] at ha
      rcases ha with h | h
      · rw [h]
        exact List.get_mem _ _ _
      · exact List.mem_of_mem_eraseIdx (ih rs.tail _ a h)

/-- Helper: in a duplicate-free list, the element at index `i` does not
survive erasing index `i`. -/
theorem get_not_mem_eraseIdx {α : Type} :
    ∀ (l : List α) (i : Nat) (hi : i < l.length),
      l.Nodup → l.get ⟨i, hi⟩ ∉ l.eraseIdx i := by
  intro l
  induction l with
  | nil =>
    intro i hi
    simp at hi
  | cons x xs ih =>
    intro i hi hnd
    cases i with
    | zero =>
      simpa using (List.nodup_cons.mp hnd).1
    | succ k =>
      simp only [List.get_cons_succ, List.eraseIdx_cons_succ, List.mem_cons]
      push_neg
      constructor
      · intro heq
        exact (List.nodup_cons.mp hnd).1 (heq ▸ List.get_mem _ _ _)
      · exact ih k (by simpa using hi) (List.nodup_cons.mp hnd).2

/-- Helper: over a duplicate-free pool, `choose_multiple` never draws the
same element twice. -/
theorem choose_multiple_nodup {α : Type} (rs : List Nat) (n : Nat) (l : List α)
    (h : l.Nodup) : (choose_multiple rs n l).Nodup := by
  induction n generalizing rs l with
  | zero => simp [choose_multiple]
  | succ m ih =>
    cases l with
    | nil => simp [choose_multiple]
    | cons x xs =>
      simp only [choose_multiple, List.nodup_cons]
      refine ⟨?_, ih rs.tail _ ((List.eraseIdx_sublist _ _).nodup h)⟩
      intro hmem
      exact get_not_mem_eraseIdx _ _ _ h (choose_multiple_subset _ _ _ _ hmem)

/-- Claim C5: `select_targets n V` returns exactly `min n |V|` pairwise
distinct addresses, each a member of the validator set V; on the empty set
it returns the empty sequence, and an oversized request is capped at `|V|`
without padding or error. -/
theorem select_targets_spec (rs : List Nat) (n : Nat) (V : List (List Byte))
    (hV : V.Nodup) :
    (select_targets rs n V).length = min n V.length ∧
    (∀ a ∈ select_targets rs n V, a ∈ V) ∧
    (select_targets rs n V).Nodup ∧
    select_targets rs n ([] : List (List Byte)) = [] := by
  refine ⟨choose_multiple_length rs n V, choose_multiple_subset rs n V,
    choose_multiple_nodup rs n V hV, ?_⟩
  cases n <;> rfl

/-- Witness for `select_targets_spec` with 6 requested targets over the
two-element validator set `[[0], [1]]`. -/
theorem select_targets_spec_witness :
    ([[0], [1]] : List (List Byte)).Nodup ∧
    (select_targets [1, 0] 6 ([[0], [1]] : List (List Byte))).length = min 6 2 ∧
    (select_targets [1, 0] 6 ([[0], [1]] : List (List Byte))).Nodup :=
  ⟨by decide, (select_targets_spec [1, 0] 6 [[0], [1]] (by decide)).1,
   (select_targets_spec [1, 0] 6 [[0], [1]] (by decide)).2.2.1⟩

/-- Helper: in a concatenation whose first part has no `q`-events and whose
second part has no `p`-events, every `p`-event precedes every `q`-event. -/
theorem beforeAll_append {α : Type} (p q : α → Bool) (a b : List α)
    (ha : ∀ x ∈ a, q x = false) (hb : ∀ x ∈ b, p x = false) :
    beforeAll p q (a ++ b) := by
  intro i j hi hj hp hq
  have hia : i < a.length := by
    by_contra hcon
    push_neg at hcon
    have hmem : (a ++ b).get ⟨i, hi⟩ ∈ b := by
      rw [List.get_eq_getElem, List.getElem_append_right hcon]
      exact List.getElem_mem _
    rw [hb _ hmem] at hp
    exact Bool.false_ne_true hp
  have hja : a.length ≤ j := by
    by_contra hcon
    push_neg at hcon
    have hmem : (a ++ b).get ⟨j, hj⟩ ∈ a := by
      rw [List.get_eq_getElem, List.getElem_append_left hcon]
      exact List.getElem_mem _
    rw [ha _ hmem] at hq
    exact Bool.false_ne_true hq
  omega

/-- Helper: the bond/role loops emit only submissions and observations of
their own transactions, never an observation of the funding batch. -/
theorem submitLoop_no_fund_observe (streams : TxId → List TxStatus)
    (mk : Nat → TxId) (hmk : ∀ i, mk i ≠ TxId.fundBatch) :
    ∀ l, ∀ e ∈ submitLoop streams mk l, isFundObserve e = false := by
  intro l
  induction l with
  | nil => simp [submitLoop]
  | cons i tail ih =>
    cases tail with
    | nil =>
      intro e he
      simp only [submitLoop, List.mem_cons, List.mem_map] at he
      rcases he with h | ⟨s, _, h⟩
      · rw [h]
        rfl
      · rw [← h]
        cases hc : mk i with
        | fundBatch => exact absurd hc (hmk i)
        | bond k => rfl
        | role k => rfl
    | cons j rest =>
      intro e he
      simp only [submitLoop, List.mem_cons] at he
      rcases he with h | h
      · rw [h]
        rfl
      · exact ih e h

/-- Claim C4: in every `validate` and every `nominate` run, every
observation of the funding batch's status stream — its terminal, final
element included — occurs strictly before every submission of a staking
(bond or role) transaction signed by a generated Identity. -/
theorem funding_observed_before_staking (n : Nat) (streams : TxId → List TxStatus) :
    beforeAll isFundObserve isStakingSubmit (validateTrace n streams) ∧
    beforeAll isFundObserve isStakingSubmit (nominateTrace n streams) := by
  have hfund : ∀ x ∈ Event.submit TxId.fundBatch ::
      (streams TxId.fundBatch).map (Event.observe TxId.fundBatch),
      isStakingSubmit x = false := by
    intro x hx
    rcases List.mem_cons.mp hx with h | h
    · rw [h]
      rfl
    · rcases List.mem_map.mp h with ⟨s, _, h⟩
      rw [← h]
      rfl
  have hstake : ∀ x ∈ submitLoop streams TxId.bond (List.range n) ++
      submitLoop streams TxId.role (List.range n), isFundObserve x = false := by
    intro x hx
    rcases List.mem_append.mp hx with h | h
    · exact submitLoop_no_fund_observe streams TxId.bond (fun i => by simp) _ x h
    · exact submitLoop_no_fund_observe streams TxId.role (fun i => by simp) _ x h
  constructor
  · unfold validateTrace
    rw [List.append_assoc]
    exact beforeAll_append _ _ _ _ hfund hstake
  · unfold nominateTrace
    rw [List.append_assoc]
    exact beforeAll_append _ _ _ _ hfund hstake

/-- Witness for `funding_observed_before_staking` at one account and the
funding stream `[finalized]`: the trace observes funding finalisation at
index 1 and submits the first bond at index 2, and indeed 1 < 2. -/
theorem funding_observed_before_staking_witness :
    isFundObserve ((validateTrace 1 (fun _ => [TxStatus.finalized])).get
        ⟨1, by decide⟩) = true ∧
    isStakingSubmit ((validateTrace 1 (fun _ => [TxStatus.finalized])).get
        ⟨2, by decide⟩) = true ∧
    (1 : Nat) < 2 :=
  ⟨by decide, by decide,
   (funding_observed_before_staking 1 (fun _ => [TxStatus.finalized])).1 1 2
     (by decide) (by decide) (by decide) (by decide)⟩

end StakingParas
